import Mathlib

/-!
Verification of the original logic of the MulticlassFCN notebook
(`stroma-epithelia.ipynb`): the label-to-one-hot mask transform, the
channel-statistics estimator cell, and the notebook-level rebinding of
the `labels` name.

Masks are 2D grids of integer labels, modelled as `List (List ℤ)`
(rows of pixels).  One-hot masks are 3D grids `List (List (List ℕ))`
(rows × columns × channels, each channel entry 0 or 1).  Images for the
statistics estimator are `List (List (List ℝ))` (rows × columns ×
colour channels).
-/

namespace MulticlassFCN

/-! ### Label-to-one-hot transform -/

/-- A 2D label mask: rows of integer-valued pixels. -/
abbrev Mask := List (List ℤ)

/-- A one-hot encoded mask: rows × columns × channels. -/
abbrev Onehot := List (List (List ℕ))

/-- The error raised by the one-hot transform on a pixel outside the
recognized label set. -/
inductive LabelErr where
  | unrecognizedLabelError
  deriving DecidableEq, Repr

/-- Every pixel of the mask belongs to the recognized label set. -/
def MaskOk (labels : List ℤ) (mask : Mask) : Prop :=
  ∀ row ∈ mask, ∀ p ∈ row, p ∈ labels

instance (labels : List ℤ) (mask : Mask) : Decidable (MaskOk labels mask) :=
  List.decidableBAll _ mask

/-- One-hot encoding of a single pixel: channel `c` is 1 exactly when the
pixel's label equals the `c`-th entry of the recognized label list. -/
def onehotPixel (labels : List ℤ) (p : ℤ) : List ℕ :=
  labels.map fun l => if p = l then 1 else 0

/-- Modelled from the spec: the `LabelToOnehot` transform of the external
`dataset` module (not part of this repository).  Given the fixed ordered
label set, it maps a 2D label mask to a `[height, width, k]` one-hot
array, raising `UnrecognizedLabelError` when some pixel's value is not in
the label set. -/
def LabelToOnehot (labels : List ℤ) (mask : Mask) : Except LabelErr Onehot :=
  if MaskOk labels mask then
    .ok (mask.map fun row => row.map (onehotPixel labels))
  else
    .error .unrecognizedLabelError

/-- Index of the first active (= 1) channel of a one-hot vector. -/
def firstActive : List ℕ → ℕ
  | [] => 0
  | x :: xs => if x = 1 then 0 else firstActive xs + 1

/-- Position of a label in the ordered label list (first occurrence). -/
def labelIndex : List ℤ → ℤ → ℕ
  | [], _ => 0
  | l :: ls, p => if p = l then 0 else labelIndex ls p + 1

/-- Decoding a one-hot pixel: the index of the active channel, mapped back
through the label list. -/
def decodePixel (labels : List ℤ) (v : List ℕ) : ℤ :=
  labels.getD (firstActive v) 0

/-- Decoding a whole one-hot mask pixelwise. -/
def decodeOnehot (labels : List ℤ) (oh : Onehot) : Mask :=
  oh.map fun row => row.map (decodePixel labels)

/-! Pixel-level lemmas about the one-hot encoding. -/

theorem onehotPixel_length (labels : List ℤ) (p : ℤ) :
    (onehotPixel labels p).length = labels.length := by
  simp [onehotPixel]

theorem firstActive_onehotPixel (labels : List ℤ) (p : ℤ) :
    firstActive (onehotPixel labels p) = labelIndex labels p := by
  induction labels with
  | nil => rfl
  | cons l ls ih =>
      by_cases h : p = l <;>
        simp [onehotPixel, firstActive, labelIndex, h, ih] at *

theorem onehotPixel_cons (l : ℤ) (ls : List ℤ) (p : ℤ) :
    onehotPixel (l :: ls) p = (if p = l then 1 else 0) :: onehotPixel ls p :=
  rfl

theorem decodePixel_onehotPixel (labels : List ℤ) (p : ℤ) (hp : p ∈ labels) :
    decodePixel labels (onehotPixel labels p) = p := by
  induction labels with
  | nil => cases hp
  | cons l ls ih =>
      by_cases h : p = l
      · simp [decodePixel, onehotPixel_cons, firstActive, h]
      · have hp' : p ∈ ls := by
          rcases List.mem_cons.mp hp with h' | h'
          · exact absurd h' h
          · exact h'
        have ihh := ih hp'
        simp only [decodePixel] at ihh ⊢
        rw [onehotPixel_cons, if_neg h]
        simpa [firstActive] using ihh

theorem onehotPixel_count_of_not_mem (labels : List ℤ) (p : ℤ)
    (hp : p ∉ labels) : (onehotPixel labels p).count 1 = 0 := by
  induction labels with
  | nil => rfl
  | cons l ls ih =>
      have h : p ≠ l := fun h => hp (h ▸ List.mem_cons_self l ls)
      have hp' : p ∉ ls := fun h' => hp (List.mem_cons_of_mem l h')
      rw [onehotPixel_cons, if_neg h]
      simpa [List.count_cons] using ih hp'

theorem onehotPixel_count_one (labels : List ℤ) (p : ℤ)
    (hnd : labels.Nodup) (hp : p ∈ labels) :
    (onehotPixel labels p).count 1 = 1 := by
  induction labels with
  | nil => cases hp
  | cons l ls ih =>
      rcases List.nodup_cons.mp hnd with ⟨hl, hnd'⟩
      by_cases h : p = l
      · have hp' : p ∉ ls := h ▸ hl
        rw [onehotPixel_cons, if_pos h]
        simpa [List.count_cons] using onehotPixel_count_of_not_mem ls p hp'
      · have hp' : p ∈ ls := by
          rcases List.mem_cons.mp hp with h' | h'
          · exact absurd h' h
          · exact h'
        rw [onehotPixel_cons, if_neg h]
        simpa [List.count_cons] using ih hnd' hp'

theorem onehotPixel_getD_labelIndex (labels : List ℤ) (p : ℤ) (hp : p ∈ labels) :
    (onehotPixel labels p).getD (labelIndex labels p) 0 = 1 := by
  induction labels with
  | nil => cases hp
  | cons l ls ih =>
      by_cases h : p = l
      · simp [onehotPixel_cons, labelIndex, h]
      · have hp' : p ∈ ls := by
          rcases List.mem_cons.mp hp with h' | h'
          · exact absurd h' h
          · exact h'
        rw [onehotPixel_cons, if_neg h]
        simpa [labelIndex, h] using ih hp'

theorem onehotPixel_getD_of_not_mem (labels : List ℤ) (p : ℤ)
    (hp : p ∉ labels) (c : ℕ) : (onehotPixel labels p).getD c 0 = 0 := by
  induction labels generalizing c with
  | nil => simp [onehotPixel]
  | cons l ls ih =>
      have h : p ≠ l := fun h => hp (h ▸ List.mem_cons_self l ls)
      have hp' : p ∉ ls := fun h' => hp (List.mem_cons_of_mem l h')
      rw [onehotPixel_cons, if_neg h]
      cases c with
      | zero => rfl
      | succ n => simpa using ih hp' n

theorem onehotPixel_getD_of_ne (labels : List ℤ) (p : ℤ)
    (hnd : labels.Nodup) (c : ℕ) (hc : c ≠ labelIndex labels p) :
    (onehotPixel labels p).getD c 0 = 0 := by
  induction labels generalizing c with
  | nil => simp [onehotPixel]
  | cons l ls ih =>
      rcases List.nodup_cons.mp hnd with ⟨hl, hnd'⟩
      by_cases h : p = l
      · have hidx : labelIndex (l :: ls) p = 0 := by simp [labelIndex, h]
        rw [hidx] at hc
        obtain ⟨n, rfl⟩ := Nat.exists_eq_succ_of_ne_zero hc
        rw [onehotPixel_cons]
        simpa using onehotPixel_getD_of_not_mem ls p (h ▸ hl) n
      · rw [onehotPixel_cons, if_neg h]
        cases c with
        | zero => rfl
        | succ n =>
            have : n ≠ labelIndex ls p := by
              intro hn
              exact hc (by simp [labelIndex, h, hn])
            simpa using ih hnd' n this

/-- `getD` on a mapped list, below the length. -/
theorem getD_map_lt {α β : Type} (f : α → β) (d : α) (d' : β)
    (l : List α) (i : ℕ) (h : i < l.length) :
    (l.map f).getD i d' = f (l.getD i d) := by
  induction l generalizing i with
  | nil => simp at h
  | cons a as ih =>
      cases i with
      | zero => simp
      | succ n =>
          have hn : n < as.length := by simpa using Nat.lt_of_succ_lt_succ h
          simpa using ih n hn

/-- `getD` below the length returns an element of the list. -/
theorem getD_mem_of_lt {α : Type} (l : List α) (i : ℕ) (d : α)
    (h : i < l.length) : l.getD i d ∈ l := by
  rw [List.getD_eq_getElem l d h]
  exact List.getElem_mem h

/-! ### Theorems about the one-hot transform (claims C1, C2, C5, C6) -/

/-- C1: for every 2D label mask whose pixels all belong to the recognized
ordered label set, applying `LabelToOnehot` and then decoding each pixel
(index of the active channel, mapped back through the label set)
reconstructs the original mask exactly. -/
theorem LabelToOnehot_roundTrip (labels : List ℤ) (mask : Mask)
    (hv : MaskOk labels mask) :
    ∃ oh, LabelToOnehot labels mask = .ok oh ∧ decodeOnehot labels oh = mask := by
  refine ⟨mask.map fun row => row.map (onehotPixel labels), ?_, ?_⟩
  · simp only [LabelToOnehot]
    rw [if_pos hv]
  · simp only [decodeOnehot, List.map_map]
    conv_rhs => rw [← List.map_id mask]
    refine List.map_congr_left fun row hrow => ?_
    simp only [Function.comp, List.map_map, id_eq]
    conv_rhs => rw [← List.map_id row]
    refine List.map_congr_left fun p hp => ?_
    exact decodePixel_onehotPixel labels p (hv row hrow p hp)

/-- Witness for C1 at a concrete mask over the label set (0, 1, 2). -/
theorem LabelToOnehot_roundTrip_witness :
    ∃ oh, LabelToOnehot [0, 1, 2] [[0, 1], [2, 0]] = .ok oh ∧
      decodeOnehot [0, 1, 2] oh = [[0, 1], [2, 0]] :=
  LabelToOnehot_roundTrip [0, 1, 2] [[0, 1], [2, 0]] (by decide)

/-- C2: on a valid mask, every pixel of the one-hot output has exactly one
channel equal to 1, all other channels equal to 0, and the index of the set
channel is the position of the pixel's label in the ordered label set. -/
theorem LabelToOnehot_invariant (labels : List ℤ) (mask : Mask)
    (hnd : labels.Nodup) (hv : MaskOk labels mask) :
    ∃ oh, LabelToOnehot labels mask = .ok oh ∧
      ∀ i j, i < mask.length → j < (mask.getD i []).length →
        ((oh.getD i []).getD j []).length = labels.length ∧
        ((oh.getD i []).getD j []).count 1 = 1 ∧
        ((oh.getD i []).getD j []).getD
            (labelIndex labels ((mask.getD i []).getD j 0)) 0 = 1 ∧
        ∀ c, c ≠ labelIndex labels ((mask.getD i []).getD j 0) →
          ((oh.getD i []).getD j []).getD c 0 = 0 := by
  refine ⟨mask.map fun row => row.map (onehotPixel labels), ?_, ?_⟩
  · simp only [LabelToOnehot]
    rw [if_pos hv]
  · intro i j hi hj
    have hrow : (mask.map fun row => row.map (onehotPixel labels)).getD i [] =
        (mask.getD i []).map (onehotPixel labels) :=
      getD_map_lt _ [] [] mask i hi
    have hpix : ((mask.getD i []).map (onehotPixel labels)).getD j [] =
        onehotPixel labels ((mask.getD i []).getD j 0) :=
      getD_map_lt _ 0 [] (mask.getD i []) j hj
    have hmem : (mask.getD i []).getD j 0 ∈ labels :=
      hv (mask.getD i []) (getD_mem_of_lt mask i [] hi)
        ((mask.getD i []).getD j 0) (getD_mem_of_lt (mask.getD i []) j 0 hj)
    rw [hrow, hpix]
    exact ⟨onehotPixel_length labels _,
      onehotPixel_count_one labels _ hnd hmem,
      onehotPixel_getD_labelIndex labels _ hmem,
      fun c hc => onehotPixel_getD_of_ne labels _ hnd c hc⟩

/-- Witness for C2 at a concrete mask over the label set (0, 1, 2). -/
theorem LabelToOnehot_invariant_witness :
    ∃ oh, LabelToOnehot [0, 1, 2] [[2]] = .ok oh ∧
      ∀ i j, i < ([[2]] : Mask).length → j < (([[2]] : Mask).getD i []).length →
        ((oh.getD i []).getD j []).length = ([0, 1, 2] : List ℤ).length ∧
        ((oh.getD i []).getD j []).count 1 = 1 ∧
        ((oh.getD i []).getD j []).getD
            (labelIndex [0, 1, 2] ((([[2]] : Mask).getD i []).getD j 0)) 0 = 1 ∧
        ∀ c, c ≠ labelIndex [0, 1, 2] ((([[2]] : Mask).getD i []).getD j 0) →
          ((oh.getD i []).getD j []).getD c 0 = 0 :=
  LabelToOnehot_invariant [0, 1, 2] [[2]] (by decide) (by decide)

/-- C5: a mask containing at least one pixel outside the recognized label
set makes `LabelToOnehot` raise `UnrecognizedLabelError`. -/
theorem LabelToOnehot_unrecognized (labels : List ℤ) (mask : Mask)
    (h : ∃ row ∈ mask, ∃ p ∈ row, p ∉ labels) :
    LabelToOnehot labels mask = .error .unrecognizedLabelError := by
  have hv : ¬ MaskOk labels mask := by
    rintro hv
    rcases h with ⟨row, hrow, p, hp, hnl⟩
    exact hnl (hv row hrow p hp)
  simp only [LabelToOnehot]
  rw [if_neg hv]

/-- Witness for C5: the label 3 is not in the label set (0, 1, 2). -/
theorem LabelToOnehot_unrecognized_witness :
    LabelToOnehot [0, 1, 2] [[0, 3]] = .error .unrecognizedLabelError :=
  LabelToOnehot_unrecognized [0, 1, 2] [[0, 3]]
    ⟨[0, 3], by simp, 3, by simp, by decide⟩

/-- C6: for a label set of size k and any valid mask, every pixel of the
one-hot output has exactly k channels, regardless of how many distinct
labels actually appear in the mask. -/
theorem LabelToOnehot_channelDim (labels : List ℤ) (mask : Mask)
    (hv : MaskOk labels mask) :
    ∃ oh, LabelToOnehot labels mask = .ok oh ∧
      oh.length = mask.length ∧
      ∀ row ∈ oh, ∀ v ∈ row, v.length = labels.length := by
  refine ⟨mask.map fun row => row.map (onehotPixel labels), ?_, by simp, ?_⟩
  · simp only [LabelToOnehot]
    rw [if_pos hv]
  · intro row hrow v hvidel
    rcases List.mem_map.mp hrow with ⟨row₀, _, rfl⟩
    rcases List.mem_map.mp hvidel with ⟨p, _, rfl⟩
    exact onehotPixel_length labels p

/-- Witness for C6: a mask in which only one of the three labels appears
still yields 3 channels per pixel. -/
theorem LabelToOnehot_channelDim_witness :
    ∃ oh, LabelToOnehot [0, 1, 2] [[1, 1], [1, 1]] = .ok oh ∧
      oh.length = ([[1, 1], [1, 1]] : Mask).length ∧
      ∀ row ∈ oh, ∀ v ∈ row, v.length = ([0, 1, 2] : List ℤ).length :=
  LabelToOnehot_channelDim [0, 1, 2] [[1, 1], [1, 1]] (by decide)

/-! ### The mask transform pipeline (claim C9) -/

/-- Modelled from the spec: the center crop of the external torchvision
library, extracting the centered `s × s` region of a mask. -/
def centerCropMask (s : ℕ) (mask : Mask) : Mask :=
  ((mask.drop ((mask.length - s) / 2)).take s).map fun row =>
    (row.drop ((row.length - s) / 2)).take s

/-- Modelled from the spec: the external `ToTensor` conversion, permuting a
`[H, W, C]` one-hot array to channel-first `[C, H, W]` order. -/
def toTensorCHW (oh : Onehot) : Onehot :=
  (List.range ((oh.headD []).headD []).length).map fun k =>
    oh.map fun row => row.map fun v => v.getD k 0

/-- The `masks` transform of `data_transforms['train']` in the notebook:
`Compose([CenterCrop(crop_size), LabelToOnehot(labels), ToTensor()])`. -/
def maskTransformTrain (labels : List ℤ) (s : ℕ) (mask : Mask) :
    Except LabelErr Onehot :=
  (LabelToOnehot labels (centerCropMask s mask)).map toTensorCHW

/-- C9: `LabelToOnehot` is deterministic — equal masks and equal label sets
give equal outputs, and mapping it over any number of repetitions of the
same mask yields identical results each time — and inside the pipeline it
acts on the cropped mask exactly as a standalone invocation does. -/
theorem LabelToOnehot_pure (labels : List ℤ) (s : ℕ) (mask : Mask) :
    (∀ labels₂ mask₂, labels₂ = labels → mask₂ = mask →
      LabelToOnehot labels₂ mask₂ = LabelToOnehot labels mask) ∧
    (∀ n, (List.replicate n mask).map (LabelToOnehot labels) =
      List.replicate n (LabelToOnehot labels mask)) ∧
    maskTransformTrain labels s mask =
      (LabelToOnehot labels (centerCropMask s mask)).map toTensorCHW := by
  refine ⟨fun labels₂ mask₂ hl hm => by rw [hl, hm], fun n => ?_, rfl⟩
  simp [List.map_replicate]

/-- Witness for C9 at the notebook's label set and crop size. -/
theorem LabelToOnehot_pure_witness :
    maskTransformTrain [0, 1, 2] 224 [[0, 1], [2, 0]] =
      (LabelToOnehot [0, 1, 2] (centerCropMask 224 [[0, 1], [2, 0]])).map
        toTensorCHW ∧
    LabelToOnehot [0, 1, 2] [[1]] = LabelToOnehot [0, 1, 2] [[1]] :=
  ⟨(LabelToOnehot_pure [0, 1, 2] 224 [[0, 1], [2, 0]]).2.2,
    (LabelToOnehot_pure [0, 1, 2] 224 [[1]]).1 [0, 1, 2] [[1]] rfl rfl⟩

/-! ### Notebook-level binding of `labels` (claim C10) -/

/-- The semantics of `np.unique` on a 2D mask: ascending list of the
distinct values occurring in it. -/
def npUnique (mask : Mask) : List ℤ :=
  (mask.flatten.dedup).insertionSort (· ≤ ·)

/-- The notebook's global bindings relevant to the flow of `labels`. -/
structure NotebookState where
  labels : List ℤ
  deriving Repr, DecidableEq

/-- The configuration cell: `labels = (0, 1, 2)`. -/
def configCell (s : NotebookState) : NotebookState :=
  { s with labels := [0, 1, 2] }

/-- The mask-inspection cell: its last statements run
`labels, label_counts = np.unique(mask, return_counts=True)`,
rebinding the global `labels`. -/
def inspectCell (mask : Mask) (s : NotebookState) : NotebookState :=
  { s with labels := npUnique mask }

/-- The third argument of the final cell's
`visualize_model(fcn_model, dataloaders, labels)` call: the current
binding of `labels`. -/
def visualizeModelLabels (s : NotebookState) : List ℤ :=
  s.labels

/-- C10: running the mask-inspection cell rebinds `labels` to the distinct
values of the inspected mask, so the final `visualize_model` call receives
those values; concretely, for the mask `[[0, 1, 1]]` it receives `[0, 1]`
rather than the configured `[0, 1, 2]` that held before the inspection
cell ran. -/
theorem labels_rebound (mask : Mask) (s₀ : NotebookState) :
    (configCell s₀).labels = [0, 1, 2] ∧
    (inspectCell mask (configCell s₀)).labels = npUnique mask ∧
    visualizeModelLabels (inspectCell mask (configCell s₀)) = npUnique mask ∧
    visualizeModelLabels (inspectCell [[0, 1, 1]] (configCell s₀)) ≠
      [0, 1, 2] := by
  refine ⟨rfl, rfl, rfl, ?_⟩
  have : npUnique [[0, 1, 1]] = [0, 1] := by decide
  simp [visualizeModelLabels, inspectCell, this]

/-! ### Channel statistics estimator (the notebook's normalization cell)

The cell allocates `np_means = np.zeros((len(imgs_list), 3))` and
`np_stds = np.zeros_like(np_means)`, fills row `i` of each with
`np.mean(img, axis=(0, 1))` and `np.std(img, axis=(0, 1))`, and finally
computes `channel_means = np.mean(np_means, axis=0)` and
`channel_stds = np.std(np_stds, axis=0)`.  Images are modelled as already
decoded pixel grids (`imread` is external); `NaN` results of numpy
reductions over empty axes are modelled as `none`. -/

/-- An image: rows × columns × colour channels, with real-valued pixels. -/
abbrev Image := List (List (List ℝ))

/-- The pixel list of an image, flattened over the two spatial axes. -/
def imagePixels (img : Image) : List (List ℝ) := img.flatten

/-- The channel count of an image: the length of its first pixel (numpy
arrays are rectangular, so all pixels agree). -/
def imageChannels (img : Image) : ℕ := ((img.headD []).headD []).length

noncomputable section

/-- The mean of channel `c` of an image over both spatial axes. -/
def channelMeanAt (img : Image) (c : ℕ) : ℝ :=
  ((imagePixels img).map fun p => p.getD c 0).sum / (imagePixels img).length

/-- The standard deviation of channel `c` of an image over both spatial
axes. -/
def channelStdAt (img : Image) (c : ℕ) : ℝ :=
  Real.sqrt ((((imagePixels img).map
    fun p => (p.getD c 0 - channelMeanAt img c) ^ 2).sum) /
      (imagePixels img).length)

/-- `np.mean(img, axis=(0, 1))`: the per-channel mean vector. -/
def npMeanSpatial (img : Image) : List ℝ :=
  (List.range (imageChannels img)).map (channelMeanAt img)

/-- `np.std(img, axis=(0, 1))`: the per-channel standard-deviation
vector. -/
def npStdSpatial (img : Image) : List ℝ :=
  (List.range (imageChannels img)).map (channelStdAt img)

end

/-- The numpy `ValueError` raised when a vector cannot be broadcast into a
row of the `(len, 3)`-shaped table. -/
inductive EstErr where
  | broadcastError
  deriving DecidableEq, Repr

/-- Numpy row assignment `table[i] = v` into a `(len, 3)`-shaped table: a
length-3 vector is stored as given, a length-1 vector broadcasts across
the row, and any other length raises a broadcast `ValueError`. -/
def broadcastRow3 (v : List ℝ) : Except EstErr (List ℝ) :=
  if v.length = 3 then .ok v
  else if v.length = 1 then .ok (List.replicate 3 (v.headD 0))
  else .error .broadcastError

noncomputable section

/-- The estimator loop: for each image in order, assign its per-channel
mean vector into `np_means` and its per-channel std vector into
`np_stds`. -/
def statsTables : List Image → Except EstErr (List (List ℝ) × List (List ℝ))
  | [] => .ok ([], [])
  | img :: rest =>
      broadcastRow3 (npMeanSpatial img) >>= fun m =>
      broadcastRow3 (npStdSpatial img) >>= fun s =>
      statsTables rest >>= fun t => .ok (m :: t.1, s :: t.2)

/-- The mean of column `c` of a table. -/
def colMeanAt (t : List (List ℝ)) (c : ℕ) : ℝ :=
  (t.map fun r => r.getD c 0).sum / t.length

/-- `np.mean(table, axis=0)` on a `(len, 3)`-shaped table; over the empty
table numpy returns NaN per column, modelled as `none`. -/
def npColMean (t : List (List ℝ)) : List (Option ℝ) :=
  (List.range 3).map fun c =>
    if t.length = 0 then none else some (colMeanAt t c)

/-- `np.std(table, axis=0)` on a `(len, 3)`-shaped table; NaN over the
empty table is `none`. -/
def npColStd (t : List (List ℝ)) : List (Option ℝ) :=
  (List.range 3).map fun c =>
    if t.length = 0 then none
    else some (Real.sqrt
      (((t.map fun r => (r.getD c 0 - colMeanAt t c) ^ 2).sum) / t.length))

/-- The whole notebook cell: fill the two `(len, 3)` tables, then
`channel_means = np.mean(np_means, axis=0)` and
`channel_stds = np.std(np_stds, axis=0)`. -/
def channelStatsCell (imgs : List Image) :
    Except EstErr (List (Option ℝ) × List (Option ℝ)) :=
  statsTables imgs >>= fun t => .ok (npColMean t.1, npColStd t.2)

/-- Stated from the spec for claim C3: the final mean vector is the
column-wise mean of the `[N × 3]` table of per-image channel means. -/
def specChannelMeans (imgs : List Image) : List ℝ :=
  (List.range 3).map fun c =>
    ((imgs.map fun img => channelMeanAt img c).sum) / imgs.length

/-- Stated from the spec for claim C3: the final std vector is the
column-wise standard deviation of the `[N × 3]` table of per-image
channel stds. -/
def specChannelStds (imgs : List Image) : List ℝ :=
  (List.range 3).map fun c =>
    Real.sqrt (((imgs.map fun img =>
      (channelStdAt img c -
        (imgs.map fun img₂ => channelStdAt img₂ c).sum / imgs.length) ^ 2).sum) /
          imgs.length)

/-- Stated from the spec for claim C3: the pooled per-channel standard
deviation over all pixels of all images — the statistic the estimator
does not compute. -/
def pooledChannelStd (imgs : List Image) (c : ℕ) : ℝ :=
  Real.sqrt ((((imgs.map imagePixels).flatten.map fun p =>
    (p.getD c 0 -
      ((imgs.map imagePixels).flatten.map fun q => q.getD c 0).sum /
        (imgs.map imagePixels).flatten.length) ^ 2).sum) /
    (imgs.map imagePixels).flatten.length)

end

/-- A well-formed 3-channel image: at least one row, no empty rows, and
every pixel holding exactly 3 channel values. -/
def Image3 (img : Image) : Prop :=
  img ≠ [] ∧ ∀ row ∈ img, row ≠ [] ∧ ∀ p ∈ row, p.length = 3

/-- An image of constant colour `v`: `h × w` pixels, each `[v, v, v]`. -/
def constImage (v : ℝ) (h w : ℕ) : Image :=
  List.replicate h (List.replicate w [v, v, v])

theorem imageChannels_eq_three {img : Image} (h : Image3 img) :
    imageChannels img = 3 := by
  obtain ⟨hne, hrows⟩ := h
  cases img with
  | nil => exact absurd rfl hne
  | cons r rs =>
      obtain ⟨hrne, hpix⟩ := hrows r (List.mem_cons_self r rs)
      cases r with
      | nil => exact absurd rfl hrne
      | cons p ps =>
          simpa [imageChannels] using hpix p (List.mem_cons_self p ps)

theorem length_npMeanSpatial (img : Image) :
    (npMeanSpatial img).length = imageChannels img := by
  simp [npMeanSpatial]

theorem length_npStdSpatial (img : Image) :
    (npStdSpatial img).length = imageChannels img := by
  simp [npStdSpatial]

theorem broadcastRow3_of_three {v : List ℝ} (h : v.length = 3) :
    broadcastRow3 v = .ok v := by
  simp [broadcastRow3, h]

theorem statsTables_ok (imgs : List Image) (h3 : ∀ img ∈ imgs, Image3 img) :
    statsTables imgs = .ok (imgs.map npMeanSpatial, imgs.map npStdSpatial) := by
  induction imgs with
  | nil => rfl
  | cons hd tl ih =>
      have hhd := imageChannels_eq_three (h3 hd (List.mem_cons_self hd tl))
      have hm := broadcastRow3_of_three ((length_npMeanSpatial hd).trans hhd)
      have hs := broadcastRow3_of_three ((length_npStdSpatial hd).trans hhd)
      have htl := ih fun i hi => h3 i (List.mem_cons_of_mem hd hi)
      simp only [statsTables, hm, hs, htl]
      rfl

theorem npMeanSpatial_getD {img : Image} (h : Image3 img) {c : ℕ}
    (hc : c < 3) : (npMeanSpatial img).getD c 0 = channelMeanAt img c := by
  have h3 := imageChannels_eq_three h
  rw [npMeanSpatial, h3,
    getD_map_lt (channelMeanAt img) 0 0 (List.range 3) c (by simpa using hc)]
  have hr : (List.range 3).getD c 0 = c := by
    rw [List.getD_eq_getElem _ _ (by simpa using hc)]
    simp
  rw [hr]

theorem npStdSpatial_getD {img : Image} (h : Image3 img) {c : ℕ}
    (hc : c < 3) : (npStdSpatial img).getD c 0 = channelStdAt img c := by
  have h3 := imageChannels_eq_three h
  rw [npStdSpatial, h3,
    getD_map_lt (channelStdAt img) 0 0 (List.range 3) c (by simpa using hc)]
  have hr : (List.range 3).getD c 0 = c := by
    rw [List.getD_eq_getElem _ _ (by simpa using hc)]
    simp
  rw [hr]

theorem colMeanAt_map_means (imgs : List Image)
    (h3 : ∀ img ∈ imgs, Image3 img) (c : ℕ) (hc : c < 3) :
    colMeanAt (imgs.map npMeanSpatial) c =
      (imgs.map fun img => channelMeanAt img c).sum / imgs.length := by
  simp only [colMeanAt, List.map_map, List.length_map]
  congr 1
  exact congrArg List.sum (List.map_congr_left fun img himg =>
    npMeanSpatial_getD (h3 img himg) hc)

theorem colMeanAt_map_stds (imgs : List Image)
    (h3 : ∀ img ∈ imgs, Image3 img) (c : ℕ) (hc : c < 3) :
    colMeanAt (imgs.map npStdSpatial) c =
      (imgs.map fun img => channelStdAt img c).sum / imgs.length := by
  simp only [colMeanAt, List.map_map, List.length_map]
  congr 1
  exact congrArg List.sum (List.map_congr_left fun img himg =>
    npStdSpatial_getD (h3 img himg) hc)

theorem npColMean_map_means (imgs : List Image) (hne : imgs ≠ [])
    (h3 : ∀ img ∈ imgs, Image3 img) :
    npColMean (imgs.map npMeanSpatial) = (specChannelMeans imgs).map some := by
  simp only [npColMean, specChannelMeans, List.map_map]
  refine List.map_congr_left fun c hc => ?_
  have hc3 : c < 3 := List.mem_range.mp hc
  have hlen : (imgs.map npMeanSpatial).length ≠ 0 := by
    simpa [List.length_eq_zero] using hne
  rw [if_neg hlen]
  simp only [Function.comp_apply]
  exact congrArg some (colMeanAt_map_means imgs h3 c hc3)

theorem npColStd_map_stds (imgs : List Image) (hne : imgs ≠ [])
    (h3 : ∀ img ∈ imgs, Image3 img) :
    npColStd (imgs.map npStdSpatial) = (specChannelStds imgs).map some := by
  simp only [npColStd, specChannelStds, List.map_map]
  refine List.map_congr_left fun c hc => ?_
  have hc3 : c < 3 := List.mem_range.mp hc
  have hlen : (imgs.map npStdSpatial).length ≠ 0 := by
    simpa [List.length_eq_zero] using hne
  rw [if_neg hlen]
  simp only [Function.comp_apply]
  refine congrArg some (congrArg Real.sqrt ?_)
  simp only [List.map_map, List.length_map]
  congr 1
  refine congrArg List.sum (List.map_congr_left fun img himg => ?_)
  simp only [Function.comp_apply]
  rw [npStdSpatial_getD (h3 img himg) hc3, colMeanAt_map_stds imgs h3 c hc3]

/-! ### Theorems about the estimator (claims C3, C4, C7, C8) -/

/-- C3: on a non-empty list of 3-channel images the estimator cell returns
exactly the column-wise mean of the `[N × 3]` per-image means table and the
column-wise standard deviation of the `[N × 3]` per-image stds table; and
on the two-image example of a black and a grey image the latter (0) differs
from the pooled per-channel standard deviation (1), so the result is not a
pooled statistic. -/
theorem channelStatsCell_twoStage (imgs : List Image) (hne : imgs ≠ [])
    (h3 : ∀ img ∈ imgs, Image3 img) :
    channelStatsCell imgs =
      .ok ((specChannelMeans imgs).map some, (specChannelStds imgs).map some) ∧
    (specChannelStds [[[[0, 0, 0]]], [[[2, 2, 2]]]]).getD 0 0 = 0 ∧
    pooledChannelStd [[[[0, 0, 0]]], [[[2, 2, 2]]]] 0 = 1 := by
  refine ⟨?_, ?_, ?_⟩
  · simp only [channelStatsCell, statsTables_ok imgs h3]
    show Except.ok (npColMean (imgs.map npMeanSpatial),
      npColStd (imgs.map npStdSpatial)) = _
    rw [npColMean_map_means imgs hne h3, npColStd_map_stds imgs hne h3]
  · norm_num [specChannelStds, channelStdAt, channelMeanAt, imagePixels,
      List.range_succ]
  · norm_num [pooledChannelStd, imagePixels]

/-- Witness for C3 on a one-image list. -/
theorem channelStatsCell_twoStage_witness :
    channelStatsCell [[[[(4 : ℝ), 5, 6]]]] =
      .ok ((specChannelMeans [[[[(4 : ℝ), 5, 6]]]]).map some,
        (specChannelStds [[[[(4 : ℝ), 5, 6]]]]).map some) ∧
    (specChannelStds [[[[0, 0, 0]]], [[[2, 2, 2]]]]).getD 0 0 = 0 ∧
    pooledChannelStd [[[[0, 0, 0]]], [[[2, 2, 2]]]] 0 = 1 :=
  channelStatsCell_twoStage [[[[(4 : ℝ), 5, 6]]]] (by simp) (by simp [Image3])

/-- C4 (amended): on the empty image list the loop runs zero times and the
final numpy reductions over the empty `[0 × 3]` tables return NaN per
channel; no error is raised. -/
theorem channelStatsCell_empty :
    channelStatsCell [] = .ok ([none, none, none], [none, none, none]) :=
  rfl

/-- Counterexample for C4 as stated: on the empty image list the estimator
cell does not raise any error (it completes and returns NaN vectors). -/
theorem channelStatsCell_empty_noError :
    channelStatsCell [] ≠ .error .broadcastError := by
  have h : channelStatsCell [] = .ok ([none, none, none], [none, none, none]) :=
    rfl
  rw [h]
  simp

theorem statsTables_error (imgs : List Image) (img : Image)
    (hmem : img ∈ imgs) (h3 : imageChannels img ≠ 3)
    (h1 : imageChannels img ≠ 1) :
    statsTables imgs = .error .broadcastError := by
  induction imgs with
  | nil => cases hmem
  | cons hd tl ih =>
      rcases List.mem_cons.mp hmem with rfl | hmem'
      · have hb : broadcastRow3 (npMeanSpatial img) = .error .broadcastError := by
          simp [broadcastRow3, length_npMeanSpatial, h3, h1]
        simp only [statsTables, hb]
        rfl
      · cases hbm : broadcastRow3 (npMeanSpatial hd) with
        | error e =>
            cases e
            simp only [statsTables, hbm]
            rfl
        | ok m =>
            cases hbs : broadcastRow3 (npStdSpatial hd) with
            | error e =>
                cases e
                simp only [statsTables, hbm, hbs]
                rfl
            | ok s =>
                simp only [statsTables, hbm, hbs, ih hmem']
                rfl

theorem channelStats_oneChannel_eval (v : ℝ) :
    channelStatsCell [[[[v]]]] =
      .ok ([some v, some v, some v], [some 0, some 0, some 0]) := by
  have hmean : channelMeanAt [[[v]]] 0 = v := by
    norm_num [channelMeanAt, imagePixels]
  have hstd : channelStdAt [[[v]]] 0 = 0 := by
    norm_num [channelStdAt, imagePixels, hmean, Real.sqrt_zero]
  have hm : npMeanSpatial [[[v]]] = [v] := by
    simp [npMeanSpatial, imageChannels, List.range_succ, hmean]
  have hs : npStdSpatial [[[v]]] = [0] := by
    simp [npStdSpatial, imageChannels, List.range_succ, hstd]
  have hbm : broadcastRow3 [v] = .ok [v, v, v] := rfl
  have hbs : broadcastRow3 [(0 : ℝ)] = .ok [0, 0, 0] := rfl
  have ht : statsTables [[[[v]]]] = .ok ([[v, v, v]], [[0, 0, 0]]) := by
    simp only [statsTables, hm, hs, hbm, hbs]
    rfl
  have hcm : npColMean [[v, v, v]] = [some v, some v, some v] := by
    norm_num [npColMean, colMeanAt, List.range_succ]
  have hcs : npColStd [[(0 : ℝ), 0, 0]] = [some 0, some 0, some 0] := by
    norm_num [npColStd, colMeanAt, List.range_succ, Real.sqrt_zero]
  simp only [channelStatsCell, ht]
  show Except.ok (npColMean [[v, v, v]], npColStd [[0, 0, 0]]) = _
  rw [hcm, hcs]

/-- C7 (amended): an image whose channel count is neither 3 nor 1 makes
the loop's row assignment raise a broadcast error; a single-channel image
instead broadcasts its statistics across all three columns and is
aggregated without error. -/
theorem channelStatsCell_badChannels (imgs : List Image) (img : Image)
    (hmem : img ∈ imgs) (h3 : imageChannels img ≠ 3)
    (h1 : imageChannels img ≠ 1) :
    channelStatsCell imgs = .error .broadcastError ∧
    channelStatsCell [[[[(7 : ℝ)]]]] =
      .ok ([some 7, some 7, some 7], [some 0, some 0, some 0]) := by
  constructor
  · simp only [channelStatsCell, statsTables_error imgs img hmem h3 h1]
    rfl
  · exact channelStats_oneChannel_eval 7

/-- Witness for C7 (amended) with a 2-channel image. -/
theorem channelStatsCell_badChannels_witness :
    channelStatsCell [[[[(1 : ℝ), 2]]]] = .error .broadcastError ∧
    channelStatsCell [[[[(7 : ℝ)]]]] =
      .ok ([some 7, some 7, some 7], [some 0, some 0, some 0]) :=
  channelStatsCell_badChannels [[[[(1 : ℝ), 2]]]] [[[(1 : ℝ), 2]]]
    (by simp) (by simp [imageChannels]) (by simp [imageChannels])

/-- Counterexample for C7 as stated: a 1-channel image (channel count
differing from the expected 3) is aggregated without any error. -/
theorem channelStatsCell_oneChannel_ok :
    channelStatsCell [[[[(5 : ℝ)]]]] =
      .ok ([some 5, some 5, some 5], [some 0, some 0, some 0]) :=
  channelStats_oneChannel_eval 5

theorem constImage_pixels (v : ℝ) (h w : ℕ) :
    imagePixels (constImage v h w) = List.replicate (h * w) [v, v, v] := by
  rw [imagePixels, constImage]
  induction h with
  | zero => simp
  | succ k ih =>
      rw [List.replicate_succ, List.flatten_cons, ih, Nat.succ_mul,
        Nat.add_comm, List.replicate_add]

theorem constImage_image3 (v : ℝ) {h w : ℕ} (hh : 1 ≤ h) (hw : 1 ≤ w) :
    Image3 (constImage v h w) := by
  refine ⟨?_, fun row hrow => ?_⟩
  · simp only [constImage, ne_eq, List.replicate_eq_nil_iff]
    omega
  · rw [List.eq_of_mem_replicate hrow]
    refine ⟨?_, fun p hp => ?_⟩
    · simp only [ne_eq, List.replicate_eq_nil_iff]
      omega
    · rw [List.eq_of_mem_replicate hp]
      rfl

theorem channelMeanAt_const (v : ℝ) {h w : ℕ} (hh : 1 ≤ h) (hw : 1 ≤ w)
    {c : ℕ} (hc : c < 3) : channelMeanAt (constImage v h w) c = v := by
  have hgd : ([v, v, v] : List ℝ).getD c 0 = v := by
    interval_cases c <;> rfl
  rw [channelMeanAt, constImage_pixels]
  rw [List.map_replicate, hgd, List.sum_replicate, List.length_replicate,
    nsmul_eq_mul]
  have hne : ((h * w : ℕ) : ℝ) ≠ 0 := by
    simp only [ne_eq, Nat.cast_eq_zero]
    positivity
  field_simp

theorem channelStdAt_const (v : ℝ) {h w : ℕ} (hh : 1 ≤ h) (hw : 1 ≤ w)
    {c : ℕ} (hc : c < 3) : channelStdAt (constImage v h w) c = 0 := by
  have hgd : ([v, v, v] : List ℝ).getD c 0 = v := by
    interval_cases c <;> rfl
  rw [channelStdAt, constImage_pixels, channelMeanAt_const v hh hw hc]
  rw [List.map_replicate, hgd, sub_self]
  simp [Real.sqrt_zero]

theorem npMeanSpatial_const (v : ℝ) {h w : ℕ} (hh : 1 ≤ h) (hw : 1 ≤ w) :
    npMeanSpatial (constImage v h w) = [v, v, v] := by
  rw [npMeanSpatial, imageChannels_eq_three (constImage_image3 v hh hw)]
  rw [show List.range 3 = [0, 1, 2] from rfl]
  simp only [List.map_cons, List.map_nil]
  rw [channelMeanAt_const v hh hw (by norm_num),
    channelMeanAt_const v hh hw (by norm_num),
    channelMeanAt_const v hh hw (by norm_num)]

theorem npStdSpatial_const (v : ℝ) {h w : ℕ} (hh : 1 ≤ h) (hw : 1 ≤ w) :
    npStdSpatial (constImage v h w) = [0, 0, 0] := by
  rw [npStdSpatial, imageChannels_eq_three (constImage_image3 v hh hw)]
  rw [show List.range 3 = [0, 1, 2] from rfl]
  simp only [List.map_cons, List.map_nil]
  rw [channelStdAt_const v hh hw (by norm_num),
    channelStdAt_const v hh hw (by norm_num),
    channelStdAt_const v hh hw (by norm_num)]

theorem colMeanAt_replicate {n : ℕ} (hn : n ≠ 0) (r : List ℝ) (c : ℕ) :
    colMeanAt (List.replicate n r) c = r.getD c 0 := by
  rw [colMeanAt, List.map_replicate, List.sum_replicate,
    List.length_replicate, nsmul_eq_mul]
  have hne : ((n : ℕ) : ℝ) ≠ 0 := by
    simpa using hn
  field_simp

theorem npColMean_replicate_const (v : ℝ) {n : ℕ} (hn : n ≠ 0) :
    npColMean (List.replicate n [v, v, v]) = [some v, some v, some v] := by
  rw [npColMean, show List.range 3 = [0, 1, 2] from rfl]
  simp only [List.map_cons, List.map_nil, List.length_replicate]
  rw [if_neg hn, if_neg hn, if_neg hn,
    colMeanAt_replicate hn, colMeanAt_replicate hn, colMeanAt_replicate hn]
  rfl

theorem npColStd_replicate_zero {n : ℕ} (hn : n ≠ 0) :
    npColStd (List.replicate n [(0 : ℝ), 0, 0]) = [some 0, some 0, some 0] := by
  have hdev : ∀ c : ℕ, ((List.replicate n [(0 : ℝ), 0, 0]).map fun r =>
      (r.getD c 0 - colMeanAt (List.replicate n [(0 : ℝ), 0, 0]) c) ^ 2).sum
        = 0 := by
    intro c
    rw [List.map_replicate, colMeanAt_replicate hn, sub_self]
    simp
  rw [npColStd, show List.range 3 = [0, 1, 2] from rfl]
  simp only [List.map_cons, List.map_nil, List.length_replicate]
  rw [if_neg hn, if_neg hn, if_neg hn, hdev 0, hdev 1, hdev 2]
  simp [Real.sqrt_zero]

/-- C8: on a list of `n ≥ 1` identical single-colour images (every pixel
equal to `v` in each of the 3 channels) the estimator cell returns mean
exactly `v` and standard deviation exactly `0` for every channel. -/
theorem channelStatsCell_const (v : ℝ) (n h w : ℕ)
    (hn : 1 ≤ n) (hh : 1 ≤ h) (hw : 1 ≤ w) :
    channelStatsCell (List.replicate n (constImage v h w)) =
      .ok ([some v, some v, some v], [some 0, some 0, some 0]) := by
  have h3 : ∀ img ∈ List.replicate n (constImage v h w), Image3 img :=
    fun img hi => (List.eq_of_mem_replicate hi) ▸ constImage_image3 v hh hw
  have hn0 : n ≠ 0 := by omega
  simp only [channelStatsCell, statsTables_ok _ h3]
  show Except.ok
    (npColMean ((List.replicate n (constImage v h w)).map npMeanSpatial),
     npColStd ((List.replicate n (constImage v h w)).map npStdSpatial)) = _
  rw [List.map_replicate, List.map_replicate, npMeanSpatial_const v hh hw,
    npStdSpatial_const v hh hw, npColMean_replicate_const v hn0,
    npColStd_replicate_zero hn0]

/-- Witness for C8 with two identical 1×1 images of constant value 9. -/
theorem channelStatsCell_const_witness :
    channelStatsCell (List.replicate 2 (constImage 9 1 1)) =
      .ok ([some 9, some 9, some 9], [some 0, some 0, some 0]) :=
  channelStatsCell_const 9 2 1 1 (by norm_num) (by norm_num) (by norm_num)

end MulticlassFCN
